import Mathlib

/-!
Verification of the NCCU_Smoke training script (`clip_blip_model.py`).

The script defines a multi-label image dataset parsed from a text label
file, a small two-layer classifier head fusing two embeddings by
elementwise product, a 70/15/15 random split, a training loop reporting
average epoch loss, and an evaluation loop thresholding sigmoid outputs
at 0.5.  The definitions below are a shallow embedding of those parts of
the script; theorems settle the specification claims about them.

Machine reals are modelled by `ℚ` where the computation is exact, and by
an explicit IEEE-754 double rounding model (over `ℚ`) where the script's
result depends on floating-point rounding (the split sizes
`int(0.7 * n)` and `int(0.15 * n)`).
-/

namespace Smoke

/-! ## Label-file parsing (`MultiLabelImageDataset.__init__`) -/

/-- Helper for `pySplit`: scan the characters, accumulating the current
token (reversed); whitespace ends a token, empty tokens are dropped. -/
def tokensAux : List Char → List Char → List String
  | [], acc => if acc = [] then [] else [String.mk acc.reverse]
  | c :: cs, acc =>
    if c.isWhitespace then
      (if acc = [] then tokensAux cs [] else
        String.mk acc.reverse :: tokensAux cs [])
    else tokensAux cs (c :: acc)

/-- Python `str.split()` with no argument: split on runs of whitespace,
dropping empty tokens (so leading/trailing whitespace contributes no
token). -/
def pySplit (s : String) : List String := tokensAux s.data []

/-- Python `str.strip()`: remove leading and trailing whitespace. -/
def pyStrip (s : String) : String :=
  String.mk
    (((s.data.dropWhile Char.isWhitespace).reverse.dropWhile
        Char.isWhitespace).reverse)

/-- `os.path.join` (POSIX semantics): an absolute second component
replaces the first; otherwise a separator is inserted unless the first
part is empty or already ends with one. -/
def osPathJoin (a b : String) : String :=
  if b.data.head? = some '/' then b
  else if a.data = [] then b
  else if a.data.getLast? = some '/' then a ++ b
  else a ++ "/" ++ b

/-- The fixed label vocabulary of `MultiLabelImageDataset`:
`{"fire": 0, "smoke": 1, "cloud": 2, "none": 3}`. -/
def label_map (s : String) : Option Nat :=
  if s = "fire" then some 0
  else if s = "smoke" then some 1
  else if s = "cloud" then some 2
  else if s = "none" then some 3
  else none

/-- Parsing of one line in `MultiLabelImageDataset.__init__`:
`parts = line.strip().split()`, `img_name = parts[0]`,
`labels = parts[1:]`.  `parts[0]` on an empty token list raises
`IndexError`, modelled by `none`. -/
def parseLine (line : String) : Option (String × List String) :=
  match pySplit (pyStrip line) with
  | [] => none
  | name :: labels => some (name, labels)

/-- A parsed sample as stored by the constructor: the joined image path
`os.path.join(images_dir, img_name)` and the list of label tokens. -/
def mkSample (images_dir : String) (p : String × List String) :
    String × List String :=
  (osPathJoin images_dir p.1, p.2)

/-- The dataset constructor: parse every line of the label file in
order; any line on which `parts[0]` raises aborts construction
(`none`). -/
def datasetInit (images_dir : String) (fileLines : List String) :
    Option (List (String × List String)) :=
  (fileLines.mapM parseLine).map (fun ps => ps.map (mkSample images_dir))

/-! ## Label vector and dataset items (`__getitem__`) -/

/-- One iteration of the label-vector loop in `__getitem__`: if the
token is in `label_map`, set the mapped index of the vector to `1`,
otherwise leave the vector unchanged. -/
def setLabel (v : List ℚ) (label : String) : List ℚ :=
  match label_map label with
  | some i => v.set i 1
  | none => v

/-- The label vector built by `__getitem__`: start from
`torch.zeros(num_classes)` and run the loop `for label in labels`. -/
def labelVector (nc : Nat) (labels : List String) : List ℚ :=
  labels.foldl setLabel (List.replicate nc 0)

/-- A runtime value yielded by the dataset or a data loader: a decoded
image, a label vector, or their batched (stacked) forms. -/
inductive PyVal : Type
  | img (path : String)
  | vec (v : List ℚ)
  | stackedImgs (paths : List String)
  | stackedVecs (vs : List (List ℚ))
deriving DecidableEq

/-- `__getitem__` returns the 2-tuple `(image, label_vector)`, modelled
as a length-2 list of runtime values. -/
def getItem (sample : String × List String) : List PyVal :=
  [PyVal.img sample.1, PyVal.vec (labelVector 4 sample.2)]

/-- The default collate of a batch of 2-tuples: a 2-tuple of the stacked
first components and the stacked second components. -/
def collateBatch (samples : List (String × List String)) : List PyVal :=
  [PyVal.stackedImgs (samples.map (fun s => s.1)),
   PyVal.stackedVecs (samples.map (fun s => labelVector 4 s.2))]

/-- Python unpacking `a, b, c = t` of a tuple: succeeds exactly when the
tuple has three components, otherwise raises `ValueError` (`none`). -/
def unpack3 (t : List PyVal) : Option (PyVal × PyVal × PyVal) :=
  match t with
  | [a, b, c] => some (a, b, c)
  | _ => none

/-! ## IEEE-754 double model for the split sizes

`train_size = int(0.7 * len(dataset))` and
`val_size = int(0.15 * len(dataset))` are computed in double precision:
the literal is rounded to the nearest double, the product with the
(exactly representable) integer is rounded to the nearest double, and
`int()` truncates toward zero. -/

/-- Round a rational to the nearest integer, ties to even — the IEEE-754
default rounding applied to a scaled significand. -/
def rnearestEven (q : ℚ) : ℤ :=
  if q - Int.floor q < 1/2 then Int.floor q
  else if 1/2 < q - Int.floor q then Int.floor q + 1
  else if Int.floor q % 2 = 0 then Int.floor q else Int.floor q + 1

/-- The binade exponent of a positive rational: the integer `k` with
`2 ^ k ≤ q < 2 ^ (k + 1)` (returns 0 for nonpositive input). -/
def binadeExp (q : ℚ) : ℤ :=
  if q ≤ 0 then 0
  else if 1 ≤ q then (Nat.log2 (Int.toNat (Int.floor q)) : ℤ)
  else if (2 : ℚ) ^ (-(Nat.log2 (Int.toNat (Int.floor (1 / q))) : ℤ)) ≤ q
    then -(Nat.log2 (Int.toNat (Int.floor (1 / q))) : ℤ)
    else -(Nat.log2 (Int.toNat (Int.floor (1 / q))) : ℤ) - 1

/-- Round a nonnegative rational to the nearest IEEE-754
double-precision value (53-bit significand, round to nearest, ties to
even; exponent range is never exceeded by the script's values). -/
def roundDouble (q : ℚ) : ℚ :=
  if q ≤ 0 then 0
  else
    (rnearestEven (q / 2 ^ (binadeExp q - 52)) : ℚ) *
      2 ^ (binadeExp q - 52)

/-- The double nearest to the literal `0.7`. -/
def c07 : ℚ := roundDouble (7 / 10)

/-- The double nearest to the literal `0.15`. -/
def c015 : ℚ := roundDouble (15 / 100)

/-- `train_size = int(0.7 * len(dataset))`: the double product, rounded,
then truncated toward zero (the value is nonnegative, so truncation is
the floor). -/
def train_size (n : ℕ) : ℤ := Int.floor (roundDouble (c07 * n))

/-- `val_size = int(0.15 * len(dataset))`. -/
def val_size (n : ℕ) : ℤ := Int.floor (roundDouble (c015 * n))

/-- `test_size = len(dataset) - train_size - val_size` (exact integer
arithmetic). -/
def test_size (n : ℕ) : ℤ := (n : ℤ) - train_size n - val_size n

/-! ## Classifier head (`Smoke_model`) -/

/-- Dot product of two vectors (a row of a weight matrix applied to an
input). -/
def dot (w x : List ℚ) : ℚ := (List.zipWith (fun a b => a * b) w x).sum

/-- `nn.Linear`: each output coordinate is a weight row dotted with the
input plus the corresponding bias entry. -/
def linear (W : List (List ℚ)) (b : List ℚ) (x : List ℚ) : List ℚ :=
  List.zipWith (fun wr br => dot wr x + br) W b

/-- `nn.ReLU` applied elementwise. -/
def reluVec (x : List ℚ) : List ℚ := x.map (fun a => max a 0)

/-- The parameters of `Smoke_model`: `l1 = nn.Linear(512, hidden_dim)`
and `l2 = nn.Linear(hidden_dim, num_classes)`. -/
structure SmokeModel : Type where
  W1 : List (List ℚ)
  b1 : List ℚ
  W2 : List (List ℚ)
  b2 : List ℚ

/-- Shape well-formedness of the parameters for hidden width `h` and
class count `nc`, as produced by `Smoke_model.__init__(h, nc)`. -/
structure SmokeModel.Dims (m : SmokeModel) (h nc : ℕ) : Prop where
  hW1 : m.W1.length = h
  hb1 : m.b1.length = h
  hW2 : m.W2.length = nc
  hb2 : m.b2.length = nc

/-- `Smoke_model.forward`: elementwise product of the two embeddings,
then `l1`, `ReLU`, `l2`. -/
def SmokeModel.forward (m : SmokeModel)
    (text_embedding image_embedding : List ℚ) : List ℚ :=
  let combined_embedding :=
    List.zipWith (fun a b => a * b) text_embedding image_embedding
  linear m.W2 m.b2 (reluVec (linear m.W1 m.b1 combined_embedding))

/-- The script's hidden width, `hidden_dim = 256`. -/
def hidden_dim : ℕ := 256

/-- The script's class count, `num_classes = 4`. -/
def numClasses : ℕ := 4

/-! ## Training loop bookkeeping and evaluation threshold -/

/-- `len(loader)` for a `DataLoader` without `drop_last`: the number of
batches is the ceiling of the dataset size over the batch size. -/
def numBatches (datasetLen batchSize : ℕ) : ℕ :=
  (datasetLen + batchSize - 1) / batchSize

/-- The script's batch size, `batch_size = 16`. -/
def batch_size : ℕ := 16

/-- `avg_train_loss = train_loss / len(train_loader)`: dividing by zero
batches raises `ZeroDivisionError`, modelled by `none`. -/
def avgTrainLoss (train_loss : ℚ) (nb : ℕ) : Option ℚ :=
  if nb = 0 then none else some (train_loss / nb)

/-- The logistic sigmoid, as applied by `torch.sigmoid` to a logit. -/
noncomputable def sigmoid (x : ℝ) : ℝ := 1 / (1 + Real.exp (-x))

/-- The evaluation prediction rule for one class:
`torch.sigmoid(output) > 0.5`. -/
noncomputable def predictPos (logit : ℝ) : Prop := sigmoid logit > 0.5

/-- The per-class predictions of the evaluation loop: the threshold
applied independently to each logit. -/
noncomputable def predictions (logits : List ℝ) : List Prop :=
  logits.map predictPos

/-! ## Helper lemmas -/

theorem setLabel_length (v : List ℚ) (l : String) :
    (setLabel v l).length = v.length := by
  unfold setLabel
  cases label_map l with
  | none => rfl
  | some i => exact List.length_set v i 1

theorem foldl_setLabel_length (labels : List String) (v : List ℚ) :
    (labels.foldl setLabel v).length = v.length := by
  induction labels generalizing v with
  | nil => rfl
  | cons l ls ih => rw [List.foldl_cons, ih, setLabel_length]

theorem label_map_lt_four (l : String) (i : ℕ) :
    label_map l = some i → i < 4 := by
  unfold label_map
  split
  · intro h; cases h; omega
  · split
    · intro h; cases h; omega
    · split
      · intro h; cases h; omega
      · split
        · intro h; cases h; omega
        · intro h; cases h

theorem foldl_setLabel_getElem (labels : List String) (v : List ℚ)
    (i : ℕ) (hi : i < v.length) :
    (labels.foldl setLabel v)[i]? =
      if ∃ l ∈ labels, label_map l = some i then some 1 else v[i]? := by
  induction labels generalizing v with
  | nil => simp
  | cons l ls ih =>
    rw [List.foldl_cons, ih (setLabel v l) (by rw [setLabel_length]; exact hi)]
    by_cases hmem : ∃ x ∈ ls, label_map x = some i
    · have hmem2 : ∃ x ∈ l :: ls, label_map x = some i := by
        rcases hmem with ⟨x, hx, hmap⟩
        exact ⟨x, List.mem_cons_of_mem l hx, hmap⟩
      rw [if_pos hmem, if_pos hmem2]
    · rw [if_neg hmem]
      unfold setLabel
      rcases hcase : label_map l with _ | j
      · rw [if_neg]
        rintro ⟨x, hx, hmap⟩
        rcases List.mem_cons.mp hx with rfl | hx2
        · rw [hcase] at hmap; cases hmap
        · exact hmem ⟨x, hx2, hmap⟩
      · by_cases hji : j = i
        · subst hji
          rw [List.getElem?_set, if_pos rfl, if_pos hi,
            if_pos ⟨l, List.mem_cons_self l ls, hcase⟩]
        · rw [List.getElem?_set, if_neg hji, if_neg]
          rintro ⟨x, hx, hmap⟩
          rcases List.mem_cons.mp hx with rfl | hx2
          · rw [hcase] at hmap
            exact hji (Option.some_injective _ hmap)
          · exact hmem ⟨x, hx2, hmap⟩

theorem labelVector_length (nc : ℕ) (labels : List String) :
    (labelVector nc labels).length = nc := by
  rw [labelVector, foldl_setLabel_length, List.length_replicate]

/-! ## Claim theorems -/

/-- C1: for every line of the label file accepted by the parser, the
label vector built by `__getitem__` has length 4, carries a 1 exactly
at the indices whose vocabulary label occurs among the line's label
tokens and a 0 elsewhere, and a line whose only token is the filename
yields the all-zero vector. -/
theorem labelVector_multi_hot (line name : String) (labels : List String)
    (h : parseLine line = some (name, labels)) :
    (labelVector 4 labels).length = 4 ∧
    (∀ i : ℕ, i < 4 →
      (labelVector 4 labels)[i]? =
        if ∃ l ∈ labels, label_map l = some i then some 1 else some 0) ∧
    (labels = [] → labelVector 4 labels = [0, 0, 0, 0]) := by
  refine ⟨labelVector_length 4 labels, fun i hi => ?_, fun hnil => ?_⟩
  · rw [labelVector, foldl_setLabel_getElem labels _ i
      (by rw [List.length_replicate]; exact hi)]
    rw [List.getElem?_replicate, if_pos hi]
  · subst hnil; rfl

theorem labelVector_multi_hot_witness :
    (labelVector 4 ["fire", "smoke"]).length = 4 ∧
    (∀ i : ℕ, i < 4 →
      (labelVector 4 ["fire", "smoke"])[i]? =
        if ∃ l ∈ ["fire", "smoke"], label_map l = some i then some 1
        else some 0) ∧
    (["fire", "smoke"] = ([] : List String) →
      labelVector 4 ["fire", "smoke"] = [0, 0, 0, 0]) :=
  labelVector_multi_hot "img1.jpg fire smoke" "img1.jpg" ["fire", "smoke"]
    (by decide)

theorem foldl_setLabel_filter (labels : List String) (v : List ℚ) :
    labels.foldl setLabel v =
      (labels.filter (fun l => (label_map l).isSome)).foldl setLabel v := by
  induction labels generalizing v with
  | nil => rfl
  | cons l ls ih =>
    rcases hcase : label_map l with _ | j
    · rw [List.foldl_cons, List.filter_cons_of_neg (by simp [hcase])]
      have hstep : setLabel v l = v := by unfold setLabel; rw [hcase]
      rw [hstep]; exact ih v
    · rw [List.filter_cons_of_pos (by simp [hcase]), List.foldl_cons,
        List.foldl_cons]
      exact ih (setLabel v l)

/-- C7: label tokens outside the vocabulary `{fire, smoke, cloud, none}`
are silently ignored by the label-vector construction — for every token
list, the vector is the same as if the unknown tokens were removed, and
no error is raised (the construction is total). -/
theorem labelVector_ignores_unknown (labels : List String) :
    labelVector 4 labels =
      labelVector 4 (labels.filter (fun l => (label_map l).isSome)) :=
  foldl_setLabel_filter labels (List.replicate 4 0)

/-- C2: `__getitem__` returns exactly the 2-tuple
`(image, label_vector)` — no tokenized-text component — so the three-way
unpacking `images, text_tokens, labels` performed by the training and
evaluation loops fails (`ValueError`, modelled by `none`) on every
dataset item and on every non-empty collated batch. -/
theorem getItem_two_components_unpack3_fails
    (sample : String × List String)
    (samples : List (String × List String)) (hne : samples ≠ []) :
    getItem sample =
      [PyVal.img sample.1, PyVal.vec (labelVector 4 sample.2)] ∧
    (getItem sample).length = 2 ∧
    unpack3 (getItem sample) = none ∧
    unpack3 (collateBatch samples) = none :=
  ⟨rfl, rfl, rfl, rfl⟩

theorem getItem_two_components_unpack3_fails_witness :
    getItem ("d/a.jpg", ["fire"]) =
      [PyVal.img ("d/a.jpg", ["fire"]).1,
       PyVal.vec (labelVector 4 ("d/a.jpg", ["fire"]).2)] ∧
    (getItem ("d/a.jpg", ["fire"])).length = 2 ∧
    unpack3 (getItem ("d/a.jpg", ["fire"])) = none ∧
    unpack3 (collateBatch [("d/a.jpg", ["fire"])]) = none :=
  getItem_two_components_unpack3_fails ("d/a.jpg", ["fire"])
    [("d/a.jpg", ["fire"])] (by decide)

/-- C5: the fusion step of `Smoke_model.forward` is the elementwise
product of the two embeddings, so swapping the two embedding arguments
of the same dimension leaves the output unchanged. -/
theorem forward_comm (m : SmokeModel) (a b : List ℚ)
    (h : a.length = b.length) :
    m.forward a b = m.forward b a := by
  unfold SmokeModel.forward
  rw [List.zipWith_comm_of_comm (fun x y => x * y) mul_comm a b]

theorem forward_comm_witness :
    (SmokeModel.mk [[1, 1]] [0] [[2]] [1]).forward [2, 3] [4, 5] =
      (SmokeModel.mk [[1, 1]] [0] [[2]] [1]).forward [4, 5] [2, 3] :=
  forward_comm (SmokeModel.mk [[1, 1]] [0] [[2]] [1]) [2, 3] [4, 5] rfl

/-- C6: for every batch of 512-dimensional embedding pairs and every
positive hidden width, `Smoke_model.forward` — linear(512→hidden), then
ReLU, then linear(hidden→num_classes) — produces one output row per
batch element, each of length `num_classes`; the script's defaults are
`hidden_dim = 256` and `num_classes = 4`. -/
theorem forward_shape (m : SmokeModel) (h nc : ℕ)
    (hd : m.Dims h nc) (hpos : 0 < h)
    (batch : List (List ℚ × List ℚ))
    (hb : ∀ p ∈ batch, p.1.length = 512 ∧ p.2.length = 512) :
    (∀ t i : List ℚ, m.forward t i =
      linear m.W2 m.b2 (reluVec (linear m.W1 m.b1
        (List.zipWith (fun x y => x * y) t i)))) ∧
    (batch.map (fun p => m.forward p.1 p.2)).length = batch.length ∧
    (∀ out ∈ batch.map (fun p => m.forward p.1 p.2), out.length = nc) ∧
    hidden_dim = 256 ∧ numClasses = 4 := by
  refine ⟨fun t i => rfl, List.length_map batch _, ?_, rfl, rfl⟩
  intro out hout
  rcases List.mem_map.mp hout with ⟨p, hp, rfl⟩
  unfold SmokeModel.forward linear
  rw [List.length_zipWith, hd.hW2, hd.hb2, min_self]

theorem forward_shape_witness :
    (List.map
      (fun p => (SmokeModel.mk [List.replicate 512 (0:ℚ)] [0] [[1]] [0]).forward
        p.1 p.2)
      [(List.replicate 512 (0:ℚ), List.replicate 512 (0:ℚ))]).length = 1 :=
  (forward_shape (SmokeModel.mk [List.replicate 512 (0:ℚ)] [0] [[1]] [0])
    1 1 ⟨rfl, rfl, rfl, rfl⟩ (by decide)
    [(List.replicate 512 (0:ℚ), List.replicate 512 (0:ℚ))]
    (by
      intro p hp
      rcases List.mem_singleton.mp hp with rfl
      exact ⟨List.length_replicate 512 0, List.length_replicate 512 0⟩)).2.1

theorem mapM_option_mem {α β : Type} (f : α → Option β) :
    ∀ (xs : List α) (ys : List β), xs.mapM f = some ys →
      ∀ y ∈ ys, ∃ x ∈ xs, f x = some y := by
  intro xs
  induction xs with
  | nil =>
    intro ys hys y hy
    rw [List.mapM_nil] at hys
    cases hys
    cases hy
  | cons x xs ih =>
    intro ys hys y hy
    rw [List.mapM_cons] at hys
    rcases hfx : f x with _ | b
    · rw [hfx] at hys; cases hys
    · rw [hfx] at hys
      rcases hrest : xs.mapM f with _ | bs
      · rw [hrest] at hys; cases hys
      · rw [hrest] at hys
        simp only [Option.bind_eq_bind, Option.some_bind, Option.pure_def,
          Option.some_inj] at hys
        subst hys
        rcases List.mem_cons.mp hy with rfl | hy2
        · exact ⟨x, List.mem_cons_self x xs, hfx⟩
        · rcases ih bs hrest y hy2 with ⟨x2, hx2, hfx2⟩
          exact ⟨x2, List.mem_cons_of_mem x hx2, hfx2⟩

theorem mapM_option_none {α β : Type} (f : α → Option β) :
    ∀ (xs : List α) (x : α), x ∈ xs → f x = none → xs.mapM f = none := by
  intro xs
  induction xs with
  | nil => intro x hx; cases hx
  | cons a as ih =>
    intro x hx hfx
    rw [List.mapM_cons]
    rcases List.mem_cons.mp hx with rfl | hx2
    · rw [hfx]; rfl
    · rcases hfa : f a with _ | b
      · rfl
      · rw [ih x hx2 hfx]; rfl

/-- C8: for every sample stored by the dataset constructor, the image
path is `os.path.join` of the images directory and the first
whitespace-delimited token of some line of the label file, and the
stored label tokens are the remaining tokens of that line. -/
theorem sample_path_is_join (dir : String) (fileLines : List String)
    (samples : List (String × List String))
    (hinit : datasetInit dir fileLines = some samples) :
    ∀ s ∈ samples, ∃ line ∈ fileLines, ∃ name rest,
      parseLine line = some (name, rest) ∧
      s.1 = osPathJoin dir name ∧ s.2 = rest := by
  intro s hs
  rw [datasetInit] at hinit
  rcases hmap : fileLines.mapM parseLine with _ | ps
  · rw [hmap] at hinit; cases hinit
  · rw [hmap] at hinit
    simp only [Option.map_some', Option.some_inj] at hinit
    subst hinit
    rcases List.mem_map.mp hs with ⟨p, hp, rfl⟩
    rcases mapM_option_mem parseLine fileLines ps hmap p hp with
      ⟨line, hline, hparse⟩
    exact ⟨line, hline, p.1, p.2, hparse, rfl, rfl⟩

theorem sample_path_is_join_witness :
    ∃ line ∈ ["a.jpg fire"], ∃ name rest,
      parseLine line = some (name, rest) ∧
      (osPathJoin "d" "a.jpg", ["fire"]).1 = osPathJoin "d" name ∧
      (osPathJoin "d" "a.jpg", ["fire"]).2 = rest :=
  sample_path_is_join "d" ["a.jpg fire"]
    [(osPathJoin "d" "a.jpg", ["fire"])] (by decide)
    (osPathJoin "d" "a.jpg", ["fire"]) (by decide)

/-- C9: a label-file line that is empty or consists only of whitespace
makes the dataset constructor fail (`parts[0]` raises `IndexError` on
the empty token list): construction aborts and produces no sample
list. -/
theorem blank_line_aborts_init (dir : String) (fileLines : List String)
    (line : String) (hmem : line ∈ fileLines)
    (hws : ∀ c ∈ line.data, c.isWhitespace) :
    parseLine line = none ∧ datasetInit dir fileLines = none := by
  have hstrip : pyStrip line = "" := by
    rw [pyStrip, List.dropWhile_eq_nil_iff.mpr hws]
    rfl
  have hparse : parseLine line = none := by
    rw [parseLine, hstrip]
    rfl
  refine ⟨hparse, ?_⟩
  rw [datasetInit, mapM_option_none parseLine fileLines line hmem hparse]
  rfl

theorem blank_line_aborts_init_witness :
    parseLine "  " = none ∧
    datasetInit "d" ["a.jpg fire", "  "] = none :=
  blank_line_aborts_init "d" ["a.jpg fire", "  "] "  " (by decide)
    (by decide)

theorem sigmoid_zero : sigmoid 0 = 0.5 := by
  rw [sigmoid, neg_zero, Real.exp_zero]
  norm_num

/-- C4: the evaluation loop forms each class prediction independently
as `sigmoid(logit) > 0.5` with a strict comparison, so a logit whose
sigmoid is exactly 0.5 — in particular logit 0 — is classified
negative. -/
theorem sigmoid_threshold_strict (logits : List ℝ) (i : ℕ)
    (hi : i < logits.length) :
    (predictions logits)[i]? =
      some (predictPos (logits.get ⟨i, hi⟩)) ∧
    (∀ x : ℝ, predictPos x ↔ sigmoid x > 0.5) ∧
    (∀ x : ℝ, sigmoid x = 0.5 → ¬ predictPos x) ∧
    sigmoid 0 = 0.5 ∧ ¬ predictPos 0 := by
  have hstrict : ∀ x : ℝ, sigmoid x = 0.5 → ¬ predictPos x := by
    intro x hx hpos
    rw [predictPos, hx] at hpos
    exact lt_irrefl _ hpos
  refine ⟨?_, fun x => Iff.rfl, hstrict, sigmoid_zero,
    hstrict 0 sigmoid_zero⟩
  rw [predictions, List.getElem?_map, List.getElem?_eq_getElem hi]
  rfl

theorem sigmoid_threshold_strict_witness :
    (predictions [(0 : ℝ)])[0]? =
      some (predictPos ((([(0 : ℝ)]).get ⟨0, by decide⟩))) ∧
    (∀ x : ℝ, predictPos x ↔ sigmoid x > 0.5) ∧
    (∀ x : ℝ, sigmoid x = 0.5 → ¬ predictPos x) ∧
    sigmoid 0 = 0.5 ∧ ¬ predictPos 0 :=
  sigmoid_threshold_strict [(0 : ℝ)] 0 (by decide)

/-! ## Evaluation lemmas for the double-precision split sizes -/

theorem rnearestEven_eval_down (q : ℚ) (f : ℤ)
    (hf : Int.floor q = f) (h : q - f < 1/2) :
    rnearestEven q = f := by
  rw [rnearestEven, hf, if_pos h]

theorem rnearestEven_eval_up (q : ℚ) (f : ℤ)
    (hf : Int.floor q = f) (h : 1/2 < q - f) :
    rnearestEven q = f + 1 := by
  rw [rnearestEven, hf, if_neg (by linarith), if_pos h]

theorem binadeExp_eval_ge_one (q : ℚ) (f : ℤ) (k : ℕ)
    (h1 : 1 ≤ q) (hf : Int.floor q = f) (hk : Nat.log2 f.toNat = k) :
    binadeExp q = k := by
  rw [binadeExp, if_neg (by linarith), if_pos h1, hf, hk]

theorem binadeExp_eval_lt_one (q : ℚ) (f : ℤ) (j : ℕ) (k : ℤ)
    (h0 : ¬ q ≤ 0) (h1 : ¬ 1 ≤ q)
    (hf : Int.floor (1 / q) = f) (hj : Nat.log2 f.toNat = j)
    (hc : ¬ (2 : ℚ) ^ (-(j : ℤ)) ≤ q) (hjk : -(j : ℤ) - 1 = k) :
    binadeExp q = k := by
  rw [binadeExp, if_neg h0, if_neg h1, hf, hj, if_neg hc, hjk]

theorem roundDouble_eval (q r : ℚ) (k m : ℤ) (h0 : ¬ q ≤ 0)
    (hk : binadeExp q = k) (hm : rnearestEven (q / 2 ^ (k - 52)) = m)
    (hr : (m : ℚ) * 2 ^ (k - 52) = r) :
    roundDouble q = r := by
  rw [roundDouble, if_neg h0, hk, hm, hr]

theorem c07_val : c07 = 3152519739159347 / 4503599627370496 := by
  rw [c07]
  refine roundDouble_eval _ _ (-1) 6305039478318694 (by norm_num)
    (binadeExp_eval_lt_one _ 1 0 (-1) (by norm_num) (by norm_num)
      (by rw [Int.floor_eq_iff] <;> norm_num)
      (by simp [Nat.log2]) (by norm_num) (by norm_num)) ?_ (by norm_num)
  refine rnearestEven_eval_down _ 6305039478318694 ?_ (by norm_num)
  rw [Int.floor_eq_iff] <;> norm_num

theorem c015_val : c015 = 5404319552844595 / 36028797018963968 := by
  rw [c015]
  refine roundDouble_eval _ _ (-3) 5404319552844595 (by norm_num)
    (binadeExp_eval_lt_one _ 6 2 (-3) (by norm_num) (by norm_num)
      (by rw [Int.floor_eq_iff] <;> norm_num)
      (by simp [Nat.log2]) (by norm_num) (by norm_num)) ?_ (by norm_num)
  refine rnearestEven_eval_down _ 5404319552844595 ?_ (by norm_num)
  rw [Int.floor_eq_iff] <;> norm_num

theorem train_size_90_eq : train_size 90 = 62 := by
  rw [train_size]
  have hq : c07 * ((90 : ℕ) : ℚ) = 283726776524341230 / 4503599627370496 := by
    rw [c07_val]; norm_num
  rw [hq]
  have hr : roundDouble (283726776524341230 / 4503599627370496)
      = 8866461766385663 / 140737488355328 := by
    refine roundDouble_eval _ _ 5 8866461766385663 (by norm_num)
      (binadeExp_eval_ge_one _ 62 5 (by norm_num)
        (by rw [Int.floor_eq_iff] <;> norm_num)
        (by simp [Nat.log2])) ?_ (by norm_num)
    refine rnearestEven_eval_down _ 8866461766385663 ?_ (by norm_num)
    rw [Int.floor_eq_iff] <;> norm_num
  rw [hr, Int.floor_eq_iff] <;> norm_num

theorem val_size_90_eq : val_size 90 = 13 := by
  rw [val_size]
  have hq : c015 * ((90 : ℕ) : ℚ)
      = 486388759756013550 / 36028797018963968 := by
    rw [c015_val]; norm_num
  rw [hq]
  have hr : roundDouble (486388759756013550 / 36028797018963968)
      = 7599824371187712 / 562949953421312 := by
    refine roundDouble_eval _ _ 3 7599824371187712 (by norm_num)
      (binadeExp_eval_ge_one _ 13 3 (by norm_num)
        (by rw [Int.floor_eq_iff] <;> norm_num)
        (by simp [Nat.log2])) ?_ (by norm_num)
    have hup : rnearestEven ((486388759756013550 : ℚ) / 36028797018963968 /
        2 ^ ((3 : ℤ) - 52)) = 7599824371187711 + 1 := by
      refine rnearestEven_eval_up _ 7599824371187711 ?_ (by norm_num)
      rw [Int.floor_eq_iff] <;> norm_num
    rw [hup]; norm_num
  rw [hr, Int.floor_eq_iff] <;> norm_num

theorem train_size_zero : train_size 0 = 0 := by
  rw [train_size]
  have hq : c07 * ((0 : ℕ) : ℚ) = 0 := by norm_num
  rw [hq, roundDouble, if_pos le_rfl]
  norm_num

theorem train_size_one : train_size 1 = 0 := by
  rw [train_size]
  have hq : c07 * ((1 : ℕ) : ℚ) = 3152519739159347 / 4503599627370496 := by
    rw [c07_val]; norm_num
  rw [hq]
  have hr : roundDouble ((3152519739159347 : ℚ) / 4503599627370496)
      = 3152519739159347 / 4503599627370496 := by
    refine roundDouble_eval _ _ (-1) 6305039478318694 (by norm_num)
      (binadeExp_eval_lt_one _ 1 0 (-1) (by norm_num) (by norm_num)
        (by rw [Int.floor_eq_iff] <;> norm_num)
        (by simp [Nat.log2]) (by norm_num) (by norm_num)) ?_ (by norm_num)
    refine rnearestEven_eval_down _ 6305039478318694 ?_ (by norm_num)
    rw [Int.floor_eq_iff] <;> norm_num
  rw [hr, Int.floor_eq_iff] <;> norm_num

/-- C3, counterexample: the code computes
`train_size = int(0.7 * len(dataset))` in double precision, which at
`n = 90` yields 62, while `⌊0.7 · 90⌋ = 63` — the claimed formula
`train = floor(0.7·n)` fails. -/
theorem split_floor_counterexample :
    train_size 90 = 62 ∧ Int.floor ((7 / 10 : ℚ) * 90) = 63 := by
  refine ⟨train_size_90_eq, ?_⟩
  rw [Int.floor_eq_iff] <;> norm_num

/-- C3, amended: the split sizes are the double-precision truncations
`train = int(0.7·n)` and `val = int(0.15·n)` — `train` can be one less
than `⌊0.7·n⌋`, e.g. `n = 90` gives `(62, 13, 15)`, not `(63, 13, 14)` —
and `test = n − train − val`, so the sizes always sum to `n` with the
integer remainder going to the test split. -/
theorem split_sizes_sum :
    (∀ n : ℕ, test_size n = (n : ℤ) - train_size n - val_size n ∧
      train_size n + val_size n + test_size n = n) ∧
    train_size 90 = 62 ∧ val_size 90 = 13 ∧ test_size 90 = 15 := by
  refine ⟨fun n => ⟨rfl, by rw [test_size]; ring⟩,
    train_size_90_eq, val_size_90_eq, ?_⟩
  rw [test_size, train_size_90_eq, val_size_90_eq]
  norm_num

/-- C10: whenever `⌊0.7·n⌋ = 0` (i.e. `n ≤ 1`), the training split is
empty, the train loader has zero batches, and the average-loss
computation `train_loss / len(train_loader)` raises
`ZeroDivisionError` (modelled by `none`) instead of reporting a loss. -/
theorem empty_train_split_divzero (n : ℕ) (L : ℚ)
    (h : (7 * n) / 10 = 0) :
    train_size n = 0 ∧
    numBatches (train_size n).toNat batch_size = 0 ∧
    avgTrainLoss L (numBatches (train_size n).toNat batch_size) = none := by
  have hn : n ≤ 1 := by omega
  have ht : train_size n = 0 := by
    interval_cases n
    · exact train_size_zero
    · exact train_size_one
  refine ⟨ht, ?_, ?_⟩ <;> rw [ht] <;> rfl

theorem empty_train_split_divzero_witness :
    train_size 1 = 0 ∧
    numBatches (train_size 1).toNat batch_size = 0 ∧
    avgTrainLoss 0 (numBatches (train_size 1).toNat batch_size) = none :=
  empty_train_split_divzero 1 0 (by decide)

end Smoke
